import Mathlib

/-!
# Verification of the effect-description semantics taught by `learn-effect`

The repository is a curriculum about a functional-effects library: the
library's runtime (descriptions, typed error channel, scopes, fibers,
schedules) is demonstrated, not implemented, in `src/`.  Following the
specification's component design (spec.md §3–§7), we build a shallow
embedding of that conceptual model — computation descriptions as
state-and-scope transformers, a three-variant exit type, scoped resource
management with LIFO finalizers, bounded retry schedules, and a discrete
cooperative race/timeout model — and prove the spec's testable properties
against it.  Example code that *is* present in `src/` (`examples.ts`) is
translated directly.
-/
namespace LearnEffect

/-- Modelled from the spec: the exit-result contract (spec §6) — the tagged
outcome returned by exit-returning execution entry points has exactly three
variants: Success(value), Failure(errorValue), or Die(defectPayload).
Interruption is folded into the defect variant at the run boundary
(spec §4.1: "expected failure, or defect/interruption"). -/
inductive Exit (ε α : Type) where
  | success (a : α)
  | failure (e : ε)
  | die (defect : String)
deriving DecidableEq, Repr

/-- Modelled from the spec: the internal outcome of one execution step of a
description, distinguishing interruption as a third outcome class
(spec §7 taxonomy (c)) so that ordinary error handlers cannot observe it. -/
inductive Outcome (ε α : Type) where
  | success (a : α)
  | failure (e : ε)
  | die (defect : String)
  | interrupted
deriving DecidableEq, Repr

/-- Conversion applied at exit-returning run boundaries: interruption is
reported through the defect variant, keeping the three-variant contract. -/
def Outcome.toExit : Outcome ε α → Exit ε α
  | .success a => .success a
  | .failure e => .failure e
  | .die d => .die d
  | .interrupted => .die "interrupted"

/-- Modelled from the spec: the execution state threaded through a running
description — the ambient mutable world `state` (instantiated with an event
log in the concrete scenarios) together with the enclosing scope's ordered
list of registered release actions, most recently registered first
(spec §3 "Scope", §4.4). -/
structure ScopeState (σ : Type) where
  state : σ
  finalizers : List (σ → σ)

/-- Modelled from the spec: a computation description (spec §3).  An inert
value; "running" it is applying it to an execution state, producing the
updated state and an internal outcome.  Composition operators below produce
new descriptions and never mutate existing ones. -/
def Effect (σ ε α : Type) : Type :=
  ScopeState σ → ScopeState σ × Outcome ε α

namespace Effect

/-- Modelled from the spec: the infallible-success constructor
`Effect.succeed` (spec §4.1), demonstrated at src/examples.ts:19. -/
def succeed (a : α) : Effect σ ε α :=
  fun ss => (ss, .success a)

/-- Modelled from the spec: `Effect.fail` terminates the current computation
with an expected error in the typed error channel (spec §4.2),
demonstrated at src/examples.ts:22. -/
def fail (e : ε) : Effect σ ε α :=
  fun ss => (ss, .failure e)

/-- Modelled from the spec: `Effect.die` terminates with a defect that
bypasses the typed error channel (spec §4.2). -/
def die (d : String) : Effect σ ε α :=
  fun ss => (ss, .die d)

/-- Modelled from the spec: an external interruption signal delivered at
this suspension point (spec §4.5); the description aborts with the
interruption outcome, which ordinary error handlers do not catch. -/
def interrupt : Effect σ ε α :=
  fun ss => (ss, .interrupted)

/-- Modelled from the spec: `Effect.sync` lifts a synchronous state action
into a description (spec §4.1), as used by the acquire/release examples in
src/04-resource-management.md:146-154. -/
def sync (f : σ → σ × α) : Effect σ ε α :=
  fun ss =>
    let (s', a) := f ss.state
    (⟨s', ss.finalizers⟩, .success a)

/-- Modelled from the spec: the transform operator `Effect.map` maps the
success value through a pure function, preserving errors, defects and
interruption (spec §4.1), demonstrated at src/examples.ts:104-110. -/
def map (f : α → β) (e : Effect σ ε α) : Effect σ ε β :=
  fun ss =>
    match e ss with
    | (ss', .success a) => (ss', .success (f a))
    | (ss', .failure err) => (ss', .failure err)
    | (ss', .die d) => (ss', .die d)
    | (ss', .interrupted) => (ss', .interrupted)

/-- Modelled from the spec: the chaining operator `Effect.flatMap`
(spec §4.1) — the core sequencing primitive; the downstream stage does not
run if the upstream stage fails, dies, or is interrupted.  Demonstrated at
src/examples.ts:127-135. -/
def flatMap (e : Effect σ ε α) (k : α → Effect σ ε β) : Effect σ ε β :=
  fun ss =>
    match e ss with
    | (ss', .success a) => k a ss'
    | (ss', .failure err) => (ss', .failure err)
    | (ss', .die d) => (ss', .die d)
    | (ss', .interrupted) => (ss', .interrupted)

/-- Modelled from the spec: `Effect.acquireRelease` (spec §4.4) — performs
the acquisition, registers the release function applied to the acquired
value as a finalizer on the enclosing scope, and yields the acquired value.
Demonstrated at src/04-resource-management.md:146-154 and
src/05-concurrency.md:138-141. -/
def acquireRelease (acquire : σ → σ × α) (release : α → σ → σ) :
    Effect σ ε α :=
  fun ss =>
    let (s', a) := acquire ss.state
    (⟨s', release a :: ss.finalizers⟩, .success a)

/-- Modelled from the spec: `Effect.addFinalizer` registers a bare cleanup
action against the current scope (spec §4.4). -/
def addFinalizer (fin : σ → σ) : Effect σ ε Unit :=
  fun ss => (⟨ss.state, fin :: ss.finalizers⟩, .success ())

/-- Modelled from the spec: closing a scope invokes all registered
finalizers in strict reverse-registration order (the list is kept most
recent first, so a left fold is LIFO) (spec §3 "Scope", §4.4). -/
def closeScope (fins : List (σ → σ)) (s : σ) : σ :=
  fins.foldl (fun st fin => fin st) s

/-- Modelled from the spec: run-scoped (`Effect.scoped`) (spec §4.4) —
opens a fresh scope, runs the description with that scope, and on every
exit path (normal return, expected failure, defect, or interruption)
closes the scope by invoking all registered finalizers in reverse
registration order, then propagates the original outcome.  Demonstrated at
src/04-resource-management.md:104-112. -/
def runScoped (e : Effect σ ε α) : Effect σ ε α :=
  fun ss =>
    let (inner, out) := e ⟨ss.state, []⟩
    (⟨closeScope inner.finalizers inner.state, ss.finalizers⟩, out)

/-- Modelled from the spec: the exit-returning synchronous runner
`Effect.runSyncExit` (spec §4.1, src/unnamed/part_003:968) — runs the
description in a fresh root scope and returns a tagged `Exit` capturing
success, expected failure, or defect/interruption, without throwing. -/
def runSyncExit (e : Effect σ ε α) (s : σ) : σ × Exit ε α :=
  let (ss, out) := e ⟨s, []⟩
  (closeScope ss.finalizers ss.state, out.toExit)

/-- Modelled from the spec: the synchronous runner `Effect.runSync`
(spec §4.1) — returns the success value directly and otherwise raises the
non-success exit at the boundary (modelled by the `Except` error channel). -/
def runSync (e : Effect σ ε α) (s : σ) : Except (Exit ε α) (σ × α) :=
  match runSyncExit e s with
  | (s', .success a) => .ok (s', a)
  | (_, .failure err) => .error (.failure err)
  | (_, .die d) => .error (.die d)

end Effect

/-- A tagged expected-error value: the discriminant field `_tag` plus a
message, as in the error classes of src/examples.ts:40-43. -/
structure TaggedError where
  tag : String
  message : String
deriving DecidableEq, Repr

/-- Translated from src/examples.ts:49-52: `divide` fails with a
`DivisionError` when the divisor is zero and otherwise succeeds with the
quotient (numbers modelled as rationals). -/
def divide (a b : ℚ) : Effect σ TaggedError ℚ :=
  if b = 0 then Effect.fail ⟨"DivisionError", "Cannot divide by zero"⟩
  else Effect.succeed (a / b)

/-- An acquisition step that appends a labelled "Opening" event to the log
and yields a marker value, as in src/04-resource-management.md:147,152. -/
def openRes (msg : String) (v : α) : List String → List String × α :=
  fun log => (log ++ [msg], v)

/-- A release function that appends a labelled "Closing" event to the log,
as in src/04-resource-management.md:148,153. -/
def closeRes (msg : String) : α → List String → List String :=
  fun _ log => log ++ [msg]

/-- Translated from src/04-resource-management.md:146-149: `dbConnection`
acquires a DB marker, registering a closing log entry as its release. -/
def dbConnection : Effect (List String) ε Bool :=
  Effect.acquireRelease (openRes "1. Opening DB" true) (closeRes "4. Closing DB")

/-- Translated from src/04-resource-management.md:151-154: `fileHandle`
acquires a file marker, registering a closing log entry as its release. -/
def fileHandle : Effect (List String) ε Bool :=
  Effect.acquireRelease (openRes "2. Opening File" true) (closeRes "3. Closing File")

/-- Translated from src/04-resource-management.md:156-163: open the DB and
the file in one scope, use both, and return both markers. -/
def dbFileProgram : Effect (List String) ε (Bool × Bool) :=
  Effect.runScoped
    (Effect.flatMap dbConnection (fun db =>
      Effect.flatMap fileHandle (fun file =>
        Effect.flatMap
          (Effect.sync (fun log => (log ++ ["Using both resources"], ())))
          (fun _ => Effect.succeed (db, file)))))

/-- A sequence of labelled acquisitions in the current scope: each label
acquires (logging "acquire l") and registers a release (logging
"release l"), generalizing the two-resource example to any N. -/
def acquireAll : List String → Effect (List String) ε Unit
  | [] => Effect.succeed ()
  | l :: ls =>
      Effect.flatMap
        (Effect.acquireRelease (openRes ("acquire " ++ l) ())
          (closeRes ("release " ++ l)))
        (fun _ => acquireAll ls)

/-- Modelled from the spec: a bounded schedule (spec §3 "Schedule",
§4.6) — a pure decision function `again` from the number of retries
already performed to continue/stop, together with a bound on how many
retries it can ever allow (the claim concerns schedules "bounded to at
most K attempts"; delays are irrelevant to attempt counting and are not
modelled). -/
structure Schedule where
  bound : ℕ
  again : ℕ → Bool
  again_bound : ∀ n, bound ≤ n → again n = false

/-- Modelled from the spec: `Schedule.recurs K` — continue for at most K
retries (src/unnamed/part_003:458, src/05-concurrency.md:283). -/
def Schedule.recurs (K : ℕ) : Schedule where
  bound := K
  again := fun n => decide (n < K)
  again_bound := fun n h => by simpa using h

/-- The retry loop: run the description; on an expected failure consult the
schedule with the number of retries already performed and, if it says
continue (and the fuel provided by the schedule's bound is not exhausted),
run it again; defects and interruption are not retried.  `fuel` only
bounds recursion depth: it never cuts a run short when it is at least the
schedule's bound, by `Schedule.again_bound`. -/
def retryGo (e : Effect σ ε α) (again : ℕ → Bool) :
    ℕ → ℕ → Effect σ ε α
  | 0, _ => e
  | fuel + 1, attempt => fun ss =>
    match e ss with
    | (ss', .failure err) =>
        if again attempt then retryGo e again fuel (attempt + 1) ss'
        else (ss', .failure err)
    | other => other

/-- Modelled from the spec: `Effect.retry` (spec §4.6,
src/unnamed/part_003:452-458) — re-runs the description on failure
according to the schedule until it succeeds or the schedule signals stop,
at which point the last failure is reported. -/
def Effect.retry (e : Effect σ ε α) (sched : Schedule) : Effect σ ε α :=
  retryGo e sched.again sched.bound 0

/-- An always-failing description instrumented to count its executions in
the state: each run increments the counter and fails with the error
produced from the pre-run counter value). -/
def countingFail (err : ℕ → ε) : Effect ℕ ε α :=
  fun ss => (⟨ss.state + 1, ss.finalizers⟩, .failure (err ss.state))

/-- Modelled from the spec: a description together with its declared error
channel (spec §4.2, §7(a)) — the set of discriminant tags its expected
failures may carry — and the soundness invariant that every expected
failure it can actually produce carries a declared tag ("expected errors
are always representable in the description's declared error type",
spec §3). -/
structure TEffect (σ α : Type) where
  run : Effect σ TaggedError α
  errors : Set String
  sound : ∀ ss ss' e, run ss = (ss', .failure e) → e.tag ∈ errors

/-- The infallible-success constructor at the typed-channel level: declared
error set is empty (error type uninhabited, spec §4.1). -/
def TEffect.succeedT (a : α) : TEffect σ α where
  run := Effect.succeed a
  errors := ∅
  sound := by intro ss ss' e h; simp [Effect.succeed] at h

/-- The failure constructor at the typed-channel level: declares exactly
the discriminant tag of its error value. -/
def TEffect.failT (err : TaggedError) : TEffect σ α where
  run := Effect.fail err
  errors := {err.tag}
  sound := by
    intro ss ss' e h
    simp only [Effect.fail, Prod.mk.injEq, Outcome.failure.injEq] at h
    obtain ⟨-, he⟩ := h
    subst he
    exact rfl

/-- Modelled from the spec: chaining at the typed-channel level
(spec §4.2 composition rule) — sequencing a description with declared
errors E1 into a continuation whose descriptions declare errors within E2
yields the declared union E1 ∪ E2, demonstrated at
src/04-resource-management.md:626-634. -/
def TEffect.chain (e1 : TEffect σ α) (E2 : Set String)
    (k : α → TEffect σ β) (hk : ∀ a, (k a).errors ⊆ E2) : TEffect σ β where
  run := Effect.flatMap e1.run (fun a => (k a).run)
  errors := e1.errors ∪ E2
  sound := by
    intro ss ss' err h
    unfold Effect.flatMap at h
    rcases h1 : e1.run ss with ⟨ss1, out1⟩
    rw [h1] at h
    cases out1 with
    | success a => exact Or.inr (hk a ((k a).sound ss1 ss' err h))
    | failure e2 =>
        simp only [Prod.mk.injEq, Outcome.failure.injEq] at h
        exact Or.inl (h.2 ▸ e1.sound ss ss1 e2 h1)
    | die d => simp at h
    | interrupted => simp at h

/-- Modelled from the spec: catch-by-discriminant (`Effect.catchTag`,
spec §4.2, src/04-resource-management.md:540-551) — intercepts only the
failures whose discriminant tag matches, passes every other failure (and
success, defect, interruption) through unchanged, and removes the matched
tag from the declared error set, adding the handler's declared errors. -/
def TEffect.catchTag (e : TEffect σ α) (t : String) (Eh : Set String)
    (hnd : TaggedError → TEffect σ α) (hh : ∀ err, (hnd err).errors ⊆ Eh) :
    TEffect σ α where
  run := fun ss =>
    match e.run ss with
    | (ss', .failure err) =>
        if err.tag = t then (hnd err).run ss' else (ss', .failure err)
    | other => other
  errors := (e.errors \ {t}) ∪ Eh
  sound := by
    intro ss ss' err hrun
    simp only at hrun
    rcases h1 : e.run ss with ⟨ss1, out1⟩
    rw [h1] at hrun
    cases out1 with
    | success a => simp at hrun
    | failure e2 =>
        dsimp only at hrun
        by_cases ht : e2.tag = t
        · rw [if_pos ht] at hrun
          exact Or.inr (hh e2 ((hnd e2).sound ss1 ss' err hrun))
        · rw [if_neg ht] at hrun
          simp only [Prod.mk.injEq, Outcome.failure.injEq] at hrun
          obtain ⟨-, he⟩ := hrun
          subst he
          exact Or.inl ⟨e.sound ss ss1 e2 h1,
            fun hmem => ht (Set.mem_singleton_iff.mp hmem)⟩
    | die d => simp at hrun
    | interrupted => simp at hrun

/-- Modelled from the spec: fiber status (spec §3 "Fiber", §4.5) — Running
with the three mutually exclusive terminal states Succeeded, Failed,
Interrupted, each entered exactly once. -/
inductive FiberState where
  | running
  | succeeded
  | failed
  | interrupted
deriving DecidableEq, Repr

/-- Modelled from the spec: an always-succeeding concurrent description for
the race scenario (spec §4.5, src/05-concurrency.md:209-213) —
characterized by how many cooperative scheduler ticks it needs before
completing and the value it then succeeds with. -/
structure TimedDesc (α : Type) where
  duration : ℕ
  result : α

/-- Modelled from the spec: the cooperative race loop on a single logical
scheduler (spec §5) — each tick advances both fibers one step; the first
to exhaust its remaining steps completes, and the runtime then interrupts
the other.  On a tie tick the first fiber is polled first.  Returns
whether the first fiber won together with both fibers' terminal states. -/
def raceRun : ℕ → ℕ → Bool × FiberState × FiberState
  | 0, _ => (true, .succeeded, .interrupted)
  | _ + 1, 0 => (false, .interrupted, .succeeded)
  | a + 1, b + 1 => raceRun a b

/-- Modelled from the spec: `Effect.race` (spec §4.5,
src/05-concurrency.md:204-213) — runs both descriptions concurrently,
returns the winner's result, and interrupts the loser. -/
def race (x y : TimedDesc α) : α × FiberState × FiberState :=
  let r := raceRun x.duration y.duration
  (if r.1 then x.result else y.result, r.2.1, r.2.2)

/-- Modelled from the spec: a timed description that may fail — its exit
when allowed to run to completion, after `duration` ticks. -/
structure TimedFx (ε α : Type) where
  duration : ℕ
  exit : Exit ε α

/-- Mapping the success value of an exit through a pure function. -/
def Exit.mapVal (f : α → β) : Exit ε α → Exit ε β
  | .success a => .success (f a)
  | .failure e => .failure e
  | .die d => .die d

/-- The terminal fiber state reached by a description that ran to
completion with the given exit. -/
def exitFiberState : Exit ε α → FiberState
  | .success _ => .succeeded
  | .failure _ => .failed
  | .die _ => .failed

/-- Modelled from the spec: `Effect.timeout` (spec §4.5,
src/05-concurrency.md:269-270, src/unnamed/part_003:554-556) — races the
description against a timer; if the timer wins the result is the
absence-marker `none` in the success channel and the description's fiber
is interrupted; if the description finishes first its outcome is reported
with the success value wrapped in `some`.  Returns the reported exit
together with the description fiber's terminal state. -/
def timeout (d : TimedFx ε α) (t : ℕ) : Exit ε (Option α) × FiberState :=
  let r := raceRun d.duration t
  if r.1 then (Exit.mapVal some d.exit, exitFiberState d.exit)
  else (.success none, .interrupted)

/-- **C9.** For every value v, constructing a description with the
infallible-success constructor `succeed v` and running it synchronously
returns v unchanged; in particular `succeed 42` run synchronously
returns 42. -/
theorem C9_succeed_identity :
    (∀ (α σ : Type) (v : α) (s : σ),
        Effect.runSync (σ := σ) (ε := Empty) (Effect.succeed v) s = .ok (s, v)) ∧
    Effect.runSync (σ := Unit) (ε := Empty) (Effect.succeed 42) () = .ok ((), 42) := by
  refine ⟨fun α σ v s => rfl, rfl⟩

/-- **C8.** For every description d and pure functions f and g, mapping d's
success value by f and then mapping the result by g yields a description
with the same observable outcome on every run as mapping d once by the
composition g ∘ f. -/
theorem C8_map_fusion (σ ε α β γ : Type) (d : Effect σ ε α)
    (f : α → β) (g : β → γ) :
    Effect.map g (Effect.map f d) = Effect.map (g ∘ f) d := by
  funext ss
  unfold Effect.map
  rcases d ss with ⟨ss', out⟩
  cases out <;> rfl

/-- **C10.** For every pair of numbers a and b, `divide a b` fails with the
expected error tagged "DivisionError" with message "Cannot divide by zero"
exactly when b = 0, and otherwise succeeds with the quotient a / b; running
it never produces a defect and construction never throws (the description
is a total function of a and b). -/
theorem C10_divide_spec (σ : Type) (a b : ℚ) (s : σ) :
    Effect.runSyncExit (divide a b) s =
      (s, if b = 0 then Exit.failure ⟨"DivisionError", "Cannot divide by zero"⟩
          else Exit.success (a / b)) := by
  unfold divide
  by_cases hb : b = 0 <;>
    simp [hb, Effect.runSyncExit, Effect.fail, Effect.succeed,
      Effect.closeScope, Outcome.toExit]

/-- **C7.** For every description, the exit-returning execution entry point
never throws: it always returns a structured outcome that is exactly one of
the three variants Success, Failure, or Die — in particular a description
failing with an expected error yields the Failure variant and a description
aborting with a defect yields the Die variant. -/
theorem C7_runSyncExit_total (σ ε α : Type) (e : Effect σ ε α) (s : σ) :
    ((∃ s' a, Effect.runSyncExit e s = (s', Exit.success a)) ∨
     (∃ s' err, Effect.runSyncExit e s = (s', Exit.failure err)) ∨
     (∃ s' d, Effect.runSyncExit e s = (s', Exit.die d))) ∧
    (∀ err : ε, Effect.runSyncExit (Effect.fail (α := α) err) s = (s, Exit.failure err)) ∧
    (∀ d : String, Effect.runSyncExit (Effect.die (α := α) (ε := ε) d) s = (s, Exit.die d)) := by
  refine ⟨?_, fun err => rfl, fun d => rfl⟩
  rcases h : Effect.runSyncExit e s with ⟨s', out⟩
  cases out with
  | success a => exact .inl ⟨s', a, rfl⟩
  | failure err => exact .inr (.inl ⟨s', err, rfl⟩)
  | die d => exact .inr (.inr ⟨s', d, rfl⟩)

/-- Running `acquireAll` logs the acquisitions in order and pushes the
release actions onto the scope most-recent-first. -/
theorem acquireAll_run (ε : Type) (ls : List String) (s : List String)
    (fins : List (List String → List String)) :
    acquireAll (ε := ε) ls ⟨s, fins⟩ =
      (⟨s ++ ls.map (fun l => "acquire " ++ l),
        (ls.map (fun l => closeRes (α := Unit) ("release " ++ l) ())).reverse ++ fins⟩,
       .success ()) := by
  induction ls generalizing s fins with
  | nil => simp [acquireAll, Effect.succeed]
  | cons l ls ih =>
      simp only [acquireAll, Effect.flatMap, Effect.acquireRelease, openRes]
      rw [ih]
      simp [closeRes]

/-- Closing a scope whose stack holds the reversed list of labelled release
actions appends the release events in reverse label order. -/
theorem closeScope_releases (ls : List String) (s : List String) :
    Effect.closeScope
      ((ls.map (fun l => closeRes (α := Unit) ("release " ++ l) ())).reverse) s =
      s ++ ls.reverse.map (fun l => "release " ++ l) := by
  induction ls generalizing s with
  | nil => simp [Effect.closeScope]
  | cons l ls ih =>
      simp only [List.map_cons, List.reverse_cons]
      unfold Effect.closeScope at ih ⊢
      rw [List.foldl_append, ih]
      simp [closeRes]

/-- **C1.** For any acquire/release pair, running the acquisition-using
description to completion under run-scoped results in the release function
having been invoked exactly once — whether the use phase succeeds, fails
with an expected error, dies, or is interrupted mid-use (`out` ranges over
all four outcomes) — with the invocation occurring after the last use of
the acquired value (the final state is `release` applied once to the
post-use state) and before the scope reports its outcome (the reported
outcome is the use phase's, paired with the already-released state).  The
second part counts the release event literally: with a logging release and
a finalizer-neutral use phase, the closing token occurs in the final log
exactly once more than in the acquisition, use, and initial logs
combined. -/
theorem C1_resource_law (α β : Type) (a : α)
    (acqFn : List String → List String)
    (useFn : α → List String → List String)
    (release : α → List String → List String)
    (out : α → Outcome TaggedError β)
    (s : List String) (fins : List (List String → List String)) :
    (Effect.runScoped
        (Effect.flatMap
          (Effect.acquireRelease (fun st => (acqFn st, a)) release)
          (fun v => fun ss => (⟨useFn v ss.state, ss.finalizers⟩, out v)))
        ⟨s, fins⟩
      = (⟨release a (useFn a (acqFn s)), fins⟩, out a)) ∧
    (∀ (relTok : String) (acqEv useEv : List String),
      Effect.runScoped
        (Effect.flatMap
          (Effect.acquireRelease (fun st => (st ++ acqEv, a))
            (fun _ st => st ++ [relTok]))
          (fun v => fun ss => (⟨ss.state ++ useEv, ss.finalizers⟩, out v)))
        ⟨s, fins⟩
      = (⟨s ++ acqEv ++ useEv ++ [relTok], fins⟩, out a) ∧
      (s ++ acqEv ++ useEv ++ [relTok]).count relTok =
        s.count relTok + acqEv.count relTok + useEv.count relTok + 1) := by
  constructor
  · simp [Effect.runScoped, Effect.flatMap, Effect.acquireRelease,
      Effect.closeScope]
  · intro relTok acqEv useEv
    constructor
    · simp [Effect.runScoped, Effect.flatMap, Effect.acquireRelease,
        Effect.closeScope]
    · simp [List.count_append, List.count_cons]
      omega

/-- **C2.** For every N ≥ 0 and every sequence of N labelled acquisitions
registered in a single scope, closing the scope runs the release actions in
the exact reverse of registration order: the final log is the acquisition
events in order followed by the release events in reverse order, for every
label list.  In particular (second conjunct, translated from
src/04-resource-management.md:146-171) acquiring "DB" then "File" in one
scope and closing it logs "3. Closing File" before "4. Closing DB". -/
theorem C2_lifo_law :
    (∀ (ls : List String) (s : List String),
      Effect.runSyncExit (ε := Empty) (Effect.runScoped (acquireAll ls)) s =
        (s ++ ls.map (fun l => "acquire " ++ l)
           ++ ls.reverse.map (fun l => "release " ++ l),
         .success ())) ∧
    Effect.runSyncExit (ε := Empty) dbFileProgram [] =
      (["1. Opening DB", "2. Opening File", "Using both resources",
        "3. Closing File", "4. Closing DB"],
       .success (true, true)) := by
  constructor
  · intro ls s
    unfold Effect.runSyncExit Effect.runScoped
    rw [acquireAll_run]
    simp only [List.append_nil]
    rw [closeScope_releases]
    simp [Effect.closeScope, Outcome.toExit]
  · rfl

/-- Unrolling the retry loop on the counting always-failing description:
with `fuel` more retries allowed by `recurs K` from the current attempt
(and the fuel matching), the loop performs `fuel + 1` further executions
and reports the failure of the last one. -/
theorem retryGo_counting (ε α : Type) (err : ℕ → ε) (K : ℕ) :
    ∀ (fuel attempt n : ℕ) (fins : List (ℕ → ℕ)),
      K - attempt = fuel →
      retryGo (α := α) (countingFail err) (fun m => decide (m < K)) fuel attempt
          ⟨n, fins⟩ =
        (⟨n + (fuel + 1), fins⟩, .failure (err (n + fuel))) := by
  intro fuel
  induction fuel with
  | zero =>
      intro attempt n fins h
      simp [retryGo, countingFail]
  | succ f ih =>
      intro attempt n fins h
      have hlt : attempt < K := by omega
      unfold retryGo
      simp only [countingFail]
      rw [if_pos (by simpa using hlt)]
      rw [ih (attempt + 1) (n + 1) fins (by omega)]
      simp only [Prod.mk.injEq, ScopeState.mk.injEq]
      refine ⟨⟨by omega, trivial⟩, ?_⟩
      congr 2
      omega

/-- **C3.** For every K ≥ 0, applying retry with a schedule bounded to at
most K attempts (`Schedule.recurs K`) to a description that always fails
performs exactly K+1 total executions of the description — the execution
counter advances from n to n + (K+1) — and then reports the failure
produced by the final attempt (the error built from counter value n + K,
the K+1-st execution). -/
theorem C3_retry_termination (ε α : Type) (err : ℕ → ε) (K n : ℕ) :
    Effect.runSyncExit (Effect.retry (α := α) (countingFail err)
        (Schedule.recurs K)) n =
      (n + (K + 1), .failure (err (n + K))) := by
  unfold Effect.runSyncExit Effect.retry
  rw [show (Schedule.recurs K).bound = K from rfl,
    show (Schedule.recurs K).again = fun m => decide (m < K) from rfl,
    retryGo_counting (ε := ε) (α := α) err K K 0 n [] (by omega)]
  simp [Effect.closeScope, Outcome.toExit]

/-- With an infallible handler, catch-by-discriminant leaves every failure
of a non-matching tag able to propagate, unchanged in both directions. -/
theorem catchTag_empty_propagates (σ α : Type) (e : TEffect σ α)
    (t : String) (hnd : TaggedError → TEffect σ α)
    (hinf : ∀ err, (hnd err).errors ⊆ (∅ : Set String))
    (ss : ScopeState σ) (ss' : ScopeState σ) (err : TaggedError)
    (hne : err.tag ≠ t) :
    (e.catchTag t ∅ hnd hinf).run ss = (ss', .failure err) ↔
      e.run ss = (ss', .failure err) := by
  unfold TEffect.catchTag
  simp only
  rcases h1 : e.run ss with ⟨ss1, out1⟩
  cases out1 with
  | success a => simp
  | failure e2 =>
      dsimp only
      by_cases ht : e2.tag = t
      · rw [if_pos ht]
        constructor
        · intro hrun
          exact absurd (hinf e2 ((hnd e2).sound ss1 ss' err hrun))
            (Set.not_mem_empty _)
        · intro hrun
          simp only [Prod.mk.injEq, Outcome.failure.injEq] at hrun
          exact absurd (hrun.2 ▸ ht) hne
      · rw [if_neg ht]
  | die d => simp
  | interrupted => simp

/-- **C4.** Chaining a description with declared error tags E1 into
continuations with declared error tags within E2 yields a description
whose declared failures are exactly the union E1 ∪ E2 — and soundly so:
every failure it can actually produce carries a tag in E1 ∪ E2.  Applying
catch-by-discriminant for one tag t with an infallible handler removes
exactly that tag from the declared error channel, and every failure with
any other tag propagates through the handler unchanged in both
directions. -/
theorem C4_error_union (σ α β : Type)
    (e1 : TEffect σ α) (E2 : Set String) (k : α → TEffect σ β)
    (hk : ∀ a, (k a).errors ⊆ E2)
    (t : String) (hnd : TaggedError → TEffect σ β)
    (hinf : ∀ err, (hnd err).errors ⊆ (∅ : Set String)) :
    ((e1.chain E2 k hk).errors = e1.errors ∪ E2) ∧
    (∀ ss ss' err, (e1.chain E2 k hk).run ss = (ss', .failure err) →
        err.tag ∈ e1.errors ∪ E2) ∧
    (((e1.chain E2 k hk).catchTag t ∅ hnd hinf).errors =
        (e1.errors ∪ E2) \ {t}) ∧
    (∀ ss ss' err, err.tag ≠ t →
        (((e1.chain E2 k hk).catchTag t ∅ hnd hinf).run ss =
            (ss', .failure err) ↔
          (e1.chain E2 k hk).run ss = (ss', .failure err))) := by
  refine ⟨rfl, fun ss ss' err h => (e1.chain E2 k hk).sound ss ss' err h,
    ?_, fun ss ss' err hne =>
      catchTag_empty_propagates σ β (e1.chain E2 k hk) t hnd hinf ss ss' err hne⟩
  show ((e1.errors ∪ E2) \ {t}) ∪ ∅ = (e1.errors ∪ E2) \ {t}
  exact Set.union_empty _

/-- Witness for C4: chaining a ParseError-failing description into a
NetworkError continuation declares exactly the two tags, and catching
"ParseError" with an infallible handler leaves exactly the other tag. -/
theorem C4_error_union_witness :
    (((TEffect.failT (σ := Unit) (α := ℚ) ⟨"ParseError", "bad"⟩).chain
        {"NetworkError"}
        (fun _ => TEffect.failT (σ := Unit) (α := ℚ) ⟨"NetworkError", "down"⟩)
        (fun _ => subset_rfl)).errors =
      {"ParseError"} ∪ {"NetworkError"}) ∧
    ((((TEffect.failT (σ := Unit) (α := ℚ) ⟨"ParseError", "bad"⟩).chain
        {"NetworkError"}
        (fun _ => TEffect.failT (σ := Unit) (α := ℚ) ⟨"NetworkError", "down"⟩)
        (fun _ => subset_rfl)).catchTag "ParseError" ∅
        (fun _ => TEffect.succeedT (σ := Unit) (0 : ℚ))
        (fun _ => subset_rfl)).errors =
      ({"ParseError"} ∪ {"NetworkError"}) \ {"ParseError"}) :=
  ⟨(C4_error_union Unit ℚ ℚ (TEffect.failT ⟨"ParseError", "bad"⟩)
      {"NetworkError"}
      (fun _ => TEffect.failT (σ := Unit) (α := ℚ) ⟨"NetworkError", "down"⟩)
      (fun _ => subset_rfl) "ParseError"
      (fun _ => TEffect.succeedT (σ := Unit) (0 : ℚ))
      (fun _ => subset_rfl)).1,
   (C4_error_union Unit ℚ ℚ (TEffect.failT ⟨"ParseError", "bad"⟩)
      {"NetworkError"}
      (fun _ => TEffect.failT (σ := Unit) (α := ℚ) ⟨"NetworkError", "down"⟩)
      (fun _ => subset_rfl) "ParseError"
      (fun _ => TEffect.succeedT (σ := Unit) (0 : ℚ))
      (fun _ => subset_rfl)).2.2.1⟩

/-- The first fiber wins a strict race: when it needs strictly fewer ticks
it succeeds and the second fiber is interrupted. -/
theorem raceRun_lt (a b : ℕ) (h : a < b) :
    raceRun a b = (true, .succeeded, .interrupted) := by
  induction a generalizing b with
  | zero => cases b with
    | zero => omega
    | succ b => rfl
  | succ a ih => cases b with
    | zero => omega
    | succ b => exact ih b (by omega)

/-- The description side of a race wins exactly when its duration is at
most the other side's. -/
theorem raceRun_fst (a b : ℕ) : (raceRun a b).1 = decide (a ≤ b) := by
  induction a generalizing b with
  | zero => cases b <;> simp [raceRun]
  | succ a ih => cases b with
    | zero => simp [raceRun]
    | succ b => simpa [raceRun] using ih b

/-- **C5.** For two descriptions that both always succeed, one fast and one
slow (the fast one needing strictly fewer scheduler ticks), `race` returns
the fast one's result; the slow computation's fiber reaches the terminal
state Interrupted, and in particular never the terminal state Succeeded
(terminal states are mutually exclusive and entered exactly once). -/
theorem C5_race_law (α : Type) (fast slow : TimedDesc α)
    (h : fast.duration < slow.duration) :
    race fast slow = (fast.result, .succeeded, .interrupted) ∧
    (race fast slow).2.2 ≠ FiberState.succeeded := by
  have hr := raceRun_lt fast.duration slow.duration h
  unfold race
  rw [hr]
  exact ⟨rfl, by simp⟩

/-- Witness for C5: racing a 1-tick success against a 5-tick success
returns the fast value and interrupts the slow fiber. -/
theorem C5_race_law_witness :
    race ⟨1, "fast"⟩ ⟨5, "slow"⟩ = ("fast", .succeeded, .interrupted) ∧
    (race ⟨1, "fast"⟩ ⟨5, "slow"⟩).2.2 ≠ FiberState.succeeded :=
  C5_race_law String ⟨1, "fast"⟩ ⟨5, "slow"⟩ (by decide)

/-- **C6.** For every description d and duration t: whenever the timer wins
the race, `timeout d t` reports the absence-marker `none` through the
success channel — not a failure in the error channel — and the timed-out
description's fiber is interrupted rather than left running; and if d
finishes first its outcome is reported with the success value wrapped as
present (`some`). -/
theorem C6_timeout (ε α : Type) (d : TimedFx ε α) (t : ℕ) :
    (t < d.duration →
      timeout d t = (.success none, .interrupted) ∧
      ∀ err, (timeout d t).1 ≠ .failure err) ∧
    (d.duration ≤ t →
      timeout d t = (Exit.mapVal some d.exit, exitFiberState d.exit)) := by
  constructor
  · intro h
    have hw : (raceRun d.duration t).1 = false := by
      rw [raceRun_fst]
      simpa using by omega
    refine ⟨?_, ?_⟩ <;> simp [timeout, hw]
  · intro h
    have hw : (raceRun d.duration t).1 = true := by
      rw [raceRun_fst]
      simpa using h
    simp [timeout, hw]

/-- Witness for C6: a 10-tick failing description under a 1-tick timeout
reports `none` (not a failure) with the fiber interrupted; a 1-tick
success under a 10-tick timeout reports the value wrapped in `some`. -/
theorem C6_timeout_witness :
    (timeout (⟨10, Exit.failure "late"⟩ : TimedFx String ℕ) 1 =
        (.success none, .interrupted) ∧
      ∀ err, (timeout (⟨10, Exit.failure "late"⟩ : TimedFx String ℕ) 1).1 ≠
        .failure err) ∧
    timeout (⟨1, Exit.success 7⟩ : TimedFx String ℕ) 10 =
      (.success (some 7), .succeeded) :=
  ⟨(C6_timeout String ℕ ⟨10, Exit.failure "late"⟩ 1).1 (by decide),
   (C6_timeout String ℕ ⟨1, Exit.success 7⟩ 10).2 (by decide)⟩

end LearnEffect
